import Mathlib

/-! Verification development for the template parser
(`tools/lib/template_parser.py`): a character-level tokenizer for four tag
grammars (HTML tags, HTML comments, handlebars blocks, Django blocks) and a
stack-discipline nesting validator.

The embedding models Python strings as `List Char`, Python exceptions as an
explicit error type, and the `while` loops as fuel-based recursion with fuel
that provably exceeds the number of iterations the Python loop performs.
Out-of-range indexing (Python `IndexError`) is modelled explicitly wherever
the source indexes without a bounds guard. -/

set_option linter.unusedVariables false

deriving instance DecidableEq for Except

namespace TemplateParser

/-- Observable failures of the Python code: `TokenizationException` (message
and `line_content`), `TemplateParserException` (message only), a raw
`IndexError`, and an out-of-fuel marker that is unreachable for the fuel the
top-level entry points supply. -/
inductive PyErr where
  | tokExc (message : String) (line_content : List Char)
  | tpExc (message : String)
  | indexError
  | outOfFuel
deriving DecidableEq

/-- The `Token` record of the source: kind, raw text `s`, `tag`, 1-based
`line` and `col`, and `line_span`. -/
structure Token where
  kind : String
  s : List Char
  tag : List Char
  line : Nat
  col : Nat
  line_span : Nat
deriving DecidableEq

/-- The mutable cursor of `tokenize`: byte offset `i`, `line`, `col`. -/
structure TokenizerState where
  i : Nat
  line : Nat
  col : Nat
deriving DecidableEq

/-- Python slice `t[a:b]` for nonnegative bounds (clamping included). -/
def pySlice (t : List Char) (a b : Nat) : List Char :=
  (t.drop a).take (b - a)

/-- Python slice `t[a:-b]`, i.e. `t[a : len t - b]` with clamping. -/
def pySliceNeg (t : List Char) (a b : Nat) : List Char :=
  (t.drop a).take (t.length - b - a)

/-- Python indexing `t[j]` for a nonnegative index: `IndexError` when out of
range. -/
def pyIdx (t : List Char) (j : Nat) : Except PyErr Char :=
  match t.get? j with
  | some c => .ok c
  | none => .error .indexError

/-- Python `lst[0]`: `IndexError` on the empty list. -/
def pyHead (l : List (List Char)) : Except PyErr (List Char) :=
  match l with
  | [] => .error .indexError
  | x :: _ => .ok x

/-- Python `str` whitespace (the characters `str.split()` splits on). -/
def pyIsSpace (c : Char) : Bool :=
  c == ' ' || c == '\t' || c == '\n' || c == '\r' || c == '\x0b' || c == '\x0c'

/-- Python `s.split()`: split on runs of whitespace, dropping empty parts. -/
def pySplit : List Char → List (List Char)
  | [] => []
  | c :: rest =>
    if pyIsSpace c then pySplit rest
    else
      match rest with
      | [] => [[c]]
      | d :: _ =>
        if pyIsSpace d then [c] :: pySplit rest
        else
          match pySplit rest with
          | [] => [[c]]
          | w :: ws => (c :: w) :: ws

/-- Occurrences of a character in a list; `len(s.split(c))` is this plus 1. -/
def countChar (c : Char) : List Char → Nat
  | [] => 0
  | a :: r => (if a = c then 1 else 0) + countChar c r

/-- `is_special_html_tag` from the source (the `s` argument is unused there
too). -/
def is_special_html_tag (s tag : List Char) : Bool :=
  tag == "link".toList || tag == "meta".toList || tag == "!DOCTYPE".toList

/-- `is_django_block_tag` from the source. -/
def is_django_block_tag (tag : List Char) : Bool :=
  tag == "autoescape".toList || tag == "block".toList || tag == "comment".toList ||
  tag == "for".toList || tag == "if".toList || tag == "ifequal".toList ||
  tag == "verbatim".toList || tag == "blocktrans".toList || tag == "trans".toList ||
  tag == "raw".toList

/-- The scan loop of `get_handlebars_tag`:
`while end < len(text) - 1 and text[end] != '\x7d': end += 1`. -/
def hbScan (text : List Char) : Nat → Nat → Nat
  | 0, e => e
  | fuel + 1, e =>
    if e < text.length - 1 ∧ text.getD e ' ' ≠ '\x7d' then hbScan text fuel (e + 1) else e

/-- `get_handlebars_tag(text, i)`. The Python check
`text[end] != '\x7d' or text[end+1] != '\x7d'` short-circuits, so the second
index is only evaluated (and can only raise `IndexError`) when the first one
is the closing brace. -/
def get_handlebars_tag (text : List Char) (i : Nat) : Except PyErr (List Char) :=
  let e := hbScan text text.length (i + 2)
  match pyIdx text e with
  | .error err => .error err
  | .ok c =>
    if c ≠ '\x7d' then .error (.tokExc "Tag missing \"\x7d\x7d\"" (pySlice text i (e + 2)))
    else
      match pyIdx text (e + 1) with
      | .error err => .error err
      | .ok c2 =>
        if c2 ≠ '\x7d' then .error (.tokExc "Tag missing \"\x7d\x7d\"" (pySlice text i (e + 2)))
        else .ok (pySlice text i (e + 2))

/-- The scan loop of `get_django_tag`:
`while end < len(text) - 1 and text[end] != '%': end += 1`. -/
def djScan (text : List Char) : Nat → Nat → Nat
  | 0, e => e
  | fuel + 1, e =>
    if e < text.length - 1 ∧ text.getD e ' ' ≠ '%' then djScan text fuel (e + 1) else e

/-- `get_django_tag(text, i)`, with the same short-circuit shape as the
handlebars scanner. -/
def get_django_tag (text : List Char) (i : Nat) : Except PyErr (List Char) :=
  let e := djScan text text.length (i + 2)
  match pyIdx text e with
  | .error err => .error err
  | .ok c =>
    if c ≠ '%' then .error (.tokExc "Tag missing \"%\x7d\"" (pySlice text i (e + 2)))
    else
      match pyIdx text (e + 1) with
      | .error err => .error err
      | .ok c2 =>
        if c2 ≠ '\x7d' then .error (.tokExc "Tag missing \"%\x7d\"" (pySlice text i (e + 2)))
        else .ok (pySlice text i (e + 2))

/-- The scan loop of `get_html_tag`, returning the final
`(end, quote_count, unclosed_end)`. Loop guard:
`end < len(text) and (text[end] != '>' or quote_count % 2 != 0 and text[end] != '<')`. -/
def htmlTagScan (text : List Char) : Nat → Nat → Nat → Nat → Nat × Nat × Nat
  | 0, e, q, u => (e, q, u)
  | fuel + 1, e, q, u =>
    if e < text.length ∧ (text.getD e ' ' ≠ '>' ∨ (q % 2 ≠ 0 ∧ text.getD e ' ' ≠ '<')) then
      htmlTagScan text fuel (e + 1)
        (if text.getD e ' ' = '"' then q + 1 else q)
        (if u = 0 ∧ text.getD e ' ' = '<' then e else u)
    else (e, q, u)

/-- `get_html_tag(text, i)`: the quote-parity check precedes the
missing-`>` check. -/
def get_html_tag (text : List Char) (i : Nat) : Except PyErr (List Char) :=
  let r := htmlTagScan text (text.length + 1) (i + 1) 0 0
  let e := r.1
  let q := r.2.1
  let u := r.2.2
  if q % 2 ≠ 0 then
    if u ≠ 0 then .error (.tokExc "Unbalanced Quotes" (pySlice text i u))
    else .error (.tokExc "Unbalanced Quotes" (pySlice text i (e + 1)))
  else if e = text.length ∨ text.getD e ' ' ≠ '>' then
    .error (.tokExc "Tag missing \">\"" (pySlice text i (e + 1)))
  else .ok (pySlice text i (e + 1))

/-- The scan loop of `get_html_comment`: `while end <= len(text)` checks
`text[end-3:end] == '-->'` first; `text[end]` is only indexed while
`unclosed_end` is still 0, which is where the Python `IndexError` escapes
at `end == len(text)`. -/
def commentScan (text : List Char) (i : Nat) : Nat → Nat → Nat → Except PyErr (List Char)
  | 0, _, u => .error (.tokExc "Unclosed comment" (pySlice text i u))
  | fuel + 1, e, u =>
    if e ≤ text.length then
      if pySlice text (e - 3) e = "-->".toList then .ok (pySlice text i e)
      else
        if u = 0 then
          match text.get? e with
          | some c => commentScan text i fuel (e + 1) (if c = '<' then e else u)
          | none => .error .indexError
        else commentScan text i fuel (e + 1) u
    else .error (.tokExc "Unclosed comment" (pySlice text i u))

/-- `get_html_comment(text, i)`; the fuel strictly exceeds the iteration
count `len(text) + 1 - (i + 7) + 1` of the Python loop. -/
def get_html_comment (text : List Char) (i : Nat) : Except PyErr (List Char) :=
  commentScan text i (text.length + 2) (i + 7) 0

/-- `looking_at`: `text[i:i+len(p)] == p`. -/
def looking_at (text : List Char) (i : Nat) (p : List Char) : Bool :=
  pySlice text i (i + p.length) == p

/-- One dispatch step of the `tokenize` loop body at offset `i`: `none` means
no grammar matched (the source advances one character), otherwise the kind,
raw text and tag of the recognized construct. Errors are the uncaught
exceptions of the branch bodies; `TokenizationException`s are converted by
the caller. -/
def scanAt (text : List Char) (i : Nat) : Except PyErr (Option (String × List Char × List Char)) :=
  if looking_at text i "<!--".toList then
    match get_html_comment text i with
    | .error e => .error e
    | .ok s => .ok (some ("html_comment", s, pySliceNeg s 4 3))
  else if looking_at text i "<".toList && !looking_at text i "</".toList then
    match get_html_tag text i with
    | .error e => .error e
    | .ok s =>
      match pySplit (pySliceNeg s 1 1) with
      | [] => .error (.tpExc "Tag name missing")
      | tag :: _ =>
        if is_special_html_tag s tag then .ok (some ("html_special", s, tag))
        else if "/>".toList.isSuffixOf s then .ok (some ("html_singleton", s, tag))
        else .ok (some ("html_start", s, tag))
  else if looking_at text i "</".toList then
    match get_html_tag text i with
    | .error e => .error e
    | .ok s => .ok (some ("html_end", s, pySliceNeg s 2 1))
  else if looking_at text i "\x7b\x7b#".toList || looking_at text i "\x7b\x7b^".toList then
    match get_handlebars_tag text i with
    | .error e => .error e
    | .ok s =>
      match pyHead (pySplit (pySliceNeg s 3 2)) with
      | .error e => .error e
      | .ok tag => .ok (some ("handlebars_start", s, tag))
  else if looking_at text i "\x7b\x7b/".toList then
    match get_handlebars_tag text i with
    | .error e => .error e
    | .ok s => .ok (some ("handlebars_end", s, pySliceNeg s 3 2))
  else if looking_at text i "\x7b% ".toList && !looking_at text i "\x7b% end".toList then
    match get_django_tag text i with
    | .error e => .error e
    | .ok s =>
      match pyHead (pySplit (pySliceNeg s 3 2)) with
      | .error e => .error e
      | .ok tag => .ok (some ("django_start", s, tag))
  else if looking_at text i "\x7b% end".toList then
    match get_django_tag text i with
    | .error e => .error e
    | .ok s => .ok (some ("django_end", s, pySliceNeg s 6 3))
  else .ok none

/-- One step of `advance`: after `i += 1` the source inspects
`text[i - 1]`, i.e. the character just consumed. -/
def advanceChar (text : List Char) (st : TokenizerState) : TokenizerState :=
  if text.getD st.i ' ' = '\n' then ⟨st.i + 1, st.line + 1, 1⟩
  else ⟨st.i + 1, st.line, st.col + 1⟩

/-- `advance(n)`: `n` single-character steps. -/
def advance (text : List Char) : Nat → TokenizerState → TokenizerState
  | 0, st => st
  | n + 1, st => advance text n (advanceChar text st)

/-- The message format of the top-level except-clause of `tokenize`:
`'%s at Line %d Col %d:"%s"' % (message, line, col, line_content)`. -/
def fmtTokErr (message : String) (line col : Nat) (line_content : List Char) : String :=
  message ++ " at Line " ++ toString line ++ " Col " ++ toString col ++ ":\"" ++
    line_content.asString ++ "\""

/-- The `while state.i < len(text)` loop of `tokenize`. A recognized
construct appends its token (plus, for `html_singleton`, the synthetic
`html_singleton_end` token at the post-advance cursor) and advances by the
raw text's length; an unrecognized position advances one character. Only
`TokenizationException`s are caught and wrapped; `TemplateParserException`
("Tag name missing") and `IndexError` propagate unchanged. -/
def tokenizeLoop (text : List Char) : Nat → TokenizerState → Except PyErr (List Token)
  | 0, _ => .error .outOfFuel
  | fuel + 1, st =>
    if st.i < text.length then
      match scanAt text st.i with
      | .error (.tokExc m lc) => .error (.tpExc (fmtTokErr m st.line st.col lc))
      | .error e => .error e
      | .ok none => tokenizeLoop text fuel (advance text 1 st)
      | .ok (some (kind, s, tag)) =>
        let tok : Token := ⟨kind, s, tag, st.line, st.col, countChar '\n' s + 1⟩
        let st2 := advance text s.length st
        let syn : List Token :=
          if kind = "html_singleton" then
            [⟨"html_singleton_end", "</".toList ++ tag ++ ">".toList, tag, st2.line, st2.col, 1⟩]
          else []
        match tokenizeLoop text fuel st2 with
        | .error e => .error e
        | .ok rest => .ok (tok :: (syn ++ rest))
    else .ok []

/-- `tokenize(text)`. Every recognized construct consumes at least one
character, so `len(text) + 1` fuel strictly exceeds the loop's iteration
count. -/
def tokenize (text : List Char) : Except PyErr (List Token) :=
  tokenizeLoop text (text.length + 1) ⟨0, 1, 1⟩

/-- Errors of `validate`, mirroring exactly the data the source interpolates
into each exception message (the `fn` label is a constant). `missingEndTag`
carries nothing because the source raises the bare string
`'Missing end tag'`. -/
inductive VErr where
  | lex (e : PyErr)
  | noStartTag (tag : List Char) (line col : Nat)
  | tagProblem (problem : String) (start_s : List Char) (start_line start_col : Nat)
      (end_tag : List Char) (end_line end_col : Nat)
  | missingEndTag
deriving DecidableEq

/-- The `problem` computation of the inner matcher `f` in `validate`: the
code-split check is assigned first and unconditionally, then overwritten by
the mismatch check, and only the bad-indentation check sits under
`check_indent`. -/
def checkEnd (check_indent : Bool) (startTok endTok : Token) : Option String :=
  let max_lines : Nat := if startTok.tag = "a".toList then 3 else 1
  let p0 : Option String :=
    if startTok.tag = "code".toList ∧ endTok.line = startTok.line + 1 then
      some "Code tag is split across two lines."
    else none
  if startTok.tag ≠ endTok.tag then some "Mismatched tag."
  else if check_indent ∧ endTok.line > startTok.line + max_lines then
    if endTok.col ≠ startTok.col then some "Bad indentation." else p0
  else p0

/-- The token pass of `validate`. The source's closure chain
(`state.matcher` capturing `old_matcher`) is last-in-first-out, embedded
here as an explicit stack of start tokens; `state.depth` is its length.
Returns the final stack on success. -/
def processTokens (check_indent : Bool) : List Token → List Token → Except VErr (List Token)
  | stack, [] => .ok stack
  | stack, tok :: rest =>
    if tok.kind == "html_start" || tok.kind == "handlebars_start"
        || (tok.kind == "django_start" && is_django_block_tag tok.tag) then
      processTokens check_indent (tok :: stack) rest
    else if tok.kind == "html_end" || tok.kind == "handlebars_end"
        || tok.kind == "django_end" then
      match stack with
      | [] => .error (.noStartTag tok.tag tok.line tok.col)
      | top :: stack2 =>
        match checkEnd check_indent top tok with
        | some p => .error (.tagProblem p top.s top.line top.col tok.tag tok.line tok.col)
        | none => processTokens check_indent stack2 rest
    else processTokens check_indent stack rest

/-- `validate(text=..., check_indent=...)` on an in-memory text: tokenize,
run the matcher pass, then `if state.depth != 0: raise 'Missing end tag'`. -/
def validate (text : List Char) (check_indent : Bool) : Except VErr Unit :=
  match tokenize text with
  | .error e => .error (.lex e)
  | .ok toks =>
    match processTokens check_indent [] toks with
    | .error e => .error e
    | .ok stack => if stack ≠ [] then .error .missingEndTag else .ok ()

/-- The `problem` string carried by a `tagProblem` error, if any. -/
def problemOf : VErr → Option String
  | .tagProblem p _ _ _ _ _ _ => some p
  | _ => none

/-- The cursor's (line, column). -/
def stPos (st : TokenizerState) : Nat × Nat := (st.line, st.col)

/-- A token's reported (line, column). -/
def tokPos (t : Token) : Nat × Nat := (t.line, t.col)

/-- Source-position order (lexicographic on line then column), reflexive
form. -/
abbrev pairLe (a b : Nat × Nat) : Prop := a.1 < b.1 ∨ (a.1 = b.1 ∧ a.2 ≤ b.2)

/-- Source-position order, strict form. -/
abbrev pairLt (a b : Nat × Nat) : Prop := a.1 < b.1 ∨ (a.1 = b.1 ∧ a.2 < b.2)

/-- Adjacent-token ordering that actually holds of the token stream:
non-decreasing always, and strictly increasing when the earlier token is not
a synthetic `html_singleton_end`. -/
abbrev tokRel (a b : Token) : Prop :=
  pairLe (tokPos a) (tokPos b) ∧ (a.kind ≠ "html_singleton_end" → pairLt (tokPos a) (tokPos b))

/-- Adjacent-token ordering asserted by the spec: strictly increasing. -/
abbrev strictRel (a b : Token) : Prop := pairLt (tokPos a) (tokPos b)

instance : DecidableRel strictRel := fun a b => inferInstanceAs (Decidable (_ ∨ _))

instance : DecidableRel tokRel := fun a b => inferInstanceAs (Decidable (_ ∧ _))

/-- Interleaving of gap texts around token texts:
`g0 ++ s0 ++ g1 ++ s1 ++ ... ++ gn`. -/
def interleave : List (List Char) → List (List Char) → List Char
  | gs, [] => gs.flatten
  | gs, s :: ss => gs.headD [] ++ s ++ interleave gs.tail ss

/-- The non-synthetic tokens of a stream (everything except the synthesized
`html_singleton_end` companions, which correspond to no input text). -/
def realTokens (toks : List Token) : List Token :=
  toks.filter (fun t => t.kind != "html_singleton_end")

/-! Helper lemmas about slices, the cursor, and the scanners. -/

theorem take_min_length (l : List Char) (m : Nat) : l.take (min m l.length) = l.take m := by
  rcases Nat.le_total m l.length with h | h
  · rw [Nat.min_eq_left h]
  · rw [Nat.min_eq_right h, List.take_length, List.take_of_length_le h]

theorem pySlice_drop (text : List Char) (i b : Nat) (s : List Char)
    (h : s = pySlice text i b) : text.drop i = s ++ text.drop (i + s.length) := by
  subst h
  unfold pySlice
  have h1 : (text.drop i).take (b - i) =
      (text.drop i).take (((text.drop i).take (b - i)).length) := by
    rw [List.length_take, take_min_length]
  conv_lhs =>
    rw [← List.take_append_drop (((text.drop i).take (b - i)).length) (text.drop i)]
  rw [← h1]
  congr 1
  rw [List.drop_drop, Nat.add_comm]

theorem pySlice_length (text : List Char) (i b : Nat) (hb : b ≤ text.length) :
    (pySlice text i b).length = b - i := by
  unfold pySlice
  rw [List.length_take, List.length_drop]
  omega

theorem advanceChar_i (text : List Char) (st : TokenizerState) :
    (advanceChar text st).i = st.i + 1 := by
  unfold advanceChar
  split <;> rfl

theorem advance_i (text : List Char) (n : Nat) :
    ∀ st : TokenizerState, (advance text n st).i = st.i + n := by
  induction n with
  | zero => intro st; rfl
  | succ m ih =>
    intro st
    show (advance text m (advanceChar text st)).i = st.i + (m + 1)
    rw [ih, advanceChar_i]
    omega

theorem pairLe_refl (a : Nat × Nat) : pairLe a a := by
  right; omega

theorem pairLe_trans {a b c : Nat × Nat} (h1 : pairLe a b) (h2 : pairLe b c) : pairLe a c := by
  rcases h1 with h1 | h1 <;> rcases h2 with h2 | h2 <;> [left; left; left; right] <;> omega

theorem pairLt_of_lt_of_le {a b c : Nat × Nat} (h1 : pairLt a b) (h2 : pairLe b c) :
    pairLt a c := by
  rcases h1 with h1 | h1 <;> rcases h2 with h2 | h2 <;> [left; left; left; right] <;> omega

theorem pairLe_of_lt {a b : Nat × Nat} (h : pairLt a b) : pairLe a b := by
  rcases h with h | h <;> [left; right] <;> omega

theorem advanceChar_pos_lt (text : List Char) (st : TokenizerState) :
    pairLt (stPos st) (stPos (advanceChar text st)) := by
  unfold advanceChar stPos
  split
  · left; simp
  · right; simp

theorem advance_pos_le (text : List Char) (n : Nat) :
    ∀ st : TokenizerState, pairLe (stPos st) (stPos (advance text n st)) := by
  induction n with
  | zero => intro st; exact pairLe_refl _
  | succ m ih =>
    intro st
    exact pairLe_trans (pairLe_of_lt (advanceChar_pos_lt text st))
      (ih (advanceChar text st))

theorem advance_pos_lt (text : List Char) (n : Nat) (st : TokenizerState) (hn : 0 < n) :
    pairLt (stPos st) (stPos (advance text n st)) := by
  cases n with
  | zero => omega
  | succ m =>
    exact pairLt_of_lt_of_le (advanceChar_pos_lt text st)
      (advance_pos_le text m (advanceChar text st))

theorem pyIdx_ok_lt {text : List Char} {j : Nat} {c : Char} (h : pyIdx text j = .ok c) :
    j < text.length := by
  by_contra hge
  have : text.get? j = none := List.get?_eq_none.mpr (by omega)
  unfold pyIdx at h
  rw [this] at h
  exact absurd h (by simp)

theorem hbScan_ge (text : List Char) :
    ∀ fuel e, e ≤ hbScan text fuel e := by
  intro fuel
  induction fuel with
  | zero => intro e; exact le_refl e
  | succ n ih =>
    intro e
    simp only [hbScan]
    split
    · exact le_trans (Nat.le_succ e) (ih (e + 1))
    · exact le_refl e

theorem djScan_ge (text : List Char) :
    ∀ fuel e, e ≤ djScan text fuel e := by
  intro fuel
  induction fuel with
  | zero => intro e; exact le_refl e
  | succ n ih =>
    intro e
    simp only [djScan]
    split
    · exact le_trans (Nat.le_succ e) (ih (e + 1))
    · exact le_refl e

theorem htmlTagScan_ge (text : List Char) :
    ∀ fuel e q u, e ≤ (htmlTagScan text fuel e q u).1 := by
  intro fuel
  induction fuel with
  | zero => intro e q u; exact le_refl e
  | succ n ih =>
    intro e q u
    simp only [htmlTagScan]
    split
    · exact le_trans (Nat.le_succ e) (ih (e + 1) _ _)
    · exact le_refl e

theorem commentScan_ok (text : List Char) (i : Nat) :
    ∀ fuel e u s, commentScan text i fuel e u = .ok s →
      ∃ e2, e ≤ e2 ∧ e2 ≤ text.length ∧ s = pySlice text i e2 := by
  intro fuel
  induction fuel with
  | zero => intro e u s h; exact absurd h (by simp [commentScan])
  | succ n ih =>
    intro e u s h
    simp only [commentScan] at h
    by_cases hle : e ≤ text.length
    · rw [if_pos hle] at h
      by_cases harrow : pySlice text (e - 3) e = "-->".toList
      · rw [if_pos harrow] at h
        exact ⟨e, le_refl e, hle, by injection h with h2; exact h2.symm⟩
      · rw [if_neg harrow] at h
        by_cases hu : u = 0
        · rw [if_pos hu] at h
          cases hget : text.get? e with
          | some c =>
            rw [hget] at h
            obtain ⟨e2, h1, h2, h3⟩ := ih (e + 1) _ s h
            exact ⟨e2, by omega, h2, h3⟩
          | none => rw [hget] at h; exact absurd h (by simp)
        · rw [if_neg hu] at h
          obtain ⟨e2, h1, h2, h3⟩ := ih (e + 1) u s h
          exact ⟨e2, by omega, h2, h3⟩
    · rw [if_neg hle] at h
      exact absurd h (by simp)

theorem get_html_comment_ok {text : List Char} {i : Nat} {s : List Char}
    (h : get_html_comment text i = .ok s) :
    ∃ b, i + 1 ≤ b ∧ b ≤ text.length ∧ s = pySlice text i b := by
  obtain ⟨e2, h1, h2, h3⟩ := commentScan_ok text i _ _ _ _ h
  exact ⟨e2, by omega, h2, h3⟩

theorem get_html_tag_ok {text : List Char} {i : Nat} {s : List Char}
    (h : get_html_tag text i = .ok s) :
    ∃ b, i + 1 ≤ b ∧ b ≤ text.length ∧ s = pySlice text i b := by
  simp only [get_html_tag] at h
  split at h
  · split at h <;> exact absurd h (by simp)
  · split at h
    · exact absurd h (by simp)
    · rename_i hq hend
      push_neg at hend
      obtain ⟨hne, hgt⟩ := hend
      have hlt : (htmlTagScan text (text.length + 1) (i + 1) 0 0).1 < text.length := by
        by_contra hge
        rw [List.getD_eq_default _ _ (by omega)] at hgt
        exact absurd hgt (by decide)
      have hge1 : i + 1 ≤ (htmlTagScan text (text.length + 1) (i + 1) 0 0).1 :=
        htmlTagScan_ge text _ _ _ _
      exact ⟨(htmlTagScan text (text.length + 1) (i + 1) 0 0).1 + 1, by omega, by omega,
        by injection h with h2; exact h2.symm⟩

theorem get_handlebars_tag_ok {text : List Char} {i : Nat} {s : List Char}
    (h : get_handlebars_tag text i = .ok s) :
    ∃ b, i + 1 ≤ b ∧ b ≤ text.length ∧ s = pySlice text i b := by
  simp only [get_handlebars_tag] at h
  split at h
  · exact absurd h (by simp)
  · split at h
    · exact absurd h (by simp)
    · split at h
      · exact absurd h (by simp)
      · rename_i c2 heq2
        split at h
        · exact absurd h (by simp)
        · injection h with h3
          have hlt := pyIdx_ok_lt heq2
          have hge := hbScan_ge text text.length (i + 2)
          exact ⟨hbScan text text.length (i + 2) + 2, by omega, by omega, h3.symm⟩

theorem get_django_tag_ok {text : List Char} {i : Nat} {s : List Char}
    (h : get_django_tag text i = .ok s) :
    ∃ b, i + 1 ≤ b ∧ b ≤ text.length ∧ s = pySlice text i b := by
  simp only [get_django_tag] at h
  split at h
  · exact absurd h (by simp)
  · split at h
    · exact absurd h (by simp)
    · split at h
      · exact absurd h (by simp)
      · rename_i c2 heq2
        split at h
        · exact absurd h (by simp)
        · injection h with h3
          have hlt := pyIdx_ok_lt heq2
          have hge := djScan_ge text text.length (i + 2)
          exact ⟨djScan text text.length (i + 2) + 2, by omega, by omega, h3.symm⟩

theorem scanAt_ok {text : List Char} {i : Nat} {k : String} {s tg : List Char}
    (h : scanAt text i = .ok (some (k, s, tg))) :
    k ≠ "html_singleton_end" ∧ ∃ b, i + 1 ≤ b ∧ b ≤ text.length ∧ s = pySlice text i b := by
  unfold scanAt at h
  split at h
  · split at h
    · exact absurd h (by simp)
    · rename_i s' heq
      simp only [Except.ok.injEq, Option.some.injEq, Prod.mk.injEq] at h
      obtain ⟨hk, hs, htg⟩ := h
      subst hk; subst hs
      exact ⟨by decide, get_html_comment_ok heq⟩
  · split at h
    · split at h
      · exact absurd h (by simp)
      · rename_i s' heq
        split at h
        · exact absurd h (by simp)
        · split at h
          · simp only [Except.ok.injEq, Option.some.injEq, Prod.mk.injEq] at h
            obtain ⟨hk, hs, htg⟩ := h
            subst hk; subst hs
            exact ⟨by decide, get_html_tag_ok heq⟩
          · split at h
            · simp only [Except.ok.injEq, Option.some.injEq, Prod.mk.injEq] at h
              obtain ⟨hk, hs, htg⟩ := h
              subst hk; subst hs
              exact ⟨by decide, get_html_tag_ok heq⟩
            · simp only [Except.ok.injEq, Option.some.injEq, Prod.mk.injEq] at h
              obtain ⟨hk, hs, htg⟩ := h
              subst hk; subst hs
              exact ⟨by decide, get_html_tag_ok heq⟩
    · split at h
      · split at h
        · exact absurd h (by simp)
        · rename_i s' heq
          simp only [Except.ok.injEq, Option.some.injEq, Prod.mk.injEq] at h
          obtain ⟨hk, hs, htg⟩ := h
          subst hk; subst hs
          exact ⟨by decide, get_html_tag_ok heq⟩
      · split at h
        · split at h
          · exact absurd h (by simp)
          · rename_i s' heq
            split at h
            · exact absurd h (by simp)
            · simp only [Except.ok.injEq, Option.some.injEq, Prod.mk.injEq] at h
              obtain ⟨hk, hs, htg⟩ := h
              subst hk; subst hs
              exact ⟨by decide, get_handlebars_tag_ok heq⟩
        · split at h
          · split at h
            · exact absurd h (by simp)
            · rename_i s' heq
              simp only [Except.ok.injEq, Option.some.injEq, Prod.mk.injEq] at h
              obtain ⟨hk, hs, htg⟩ := h
              subst hk; subst hs
              exact ⟨by decide, get_handlebars_tag_ok heq⟩
          · split at h
            · split at h
              · exact absurd h (by simp)
              · rename_i s' heq
                split at h
                · exact absurd h (by simp)
                · simp only [Except.ok.injEq, Option.some.injEq, Prod.mk.injEq] at h
                  obtain ⟨hk, hs, htg⟩ := h
                  subst hk; subst hs
                  exact ⟨by decide, get_django_tag_ok heq⟩
            · split at h
              · split at h
                · exact absurd h (by simp)
                · rename_i s' heq
                  simp only [Except.ok.injEq, Option.some.injEq, Prod.mk.injEq] at h
                  obtain ⟨hk, hs, htg⟩ := h
                  subst hk; subst hs
                  exact ⟨by decide, get_django_tag_ok heq⟩
              · exact absurd h (by simp)

theorem scanAt_s_len {text : List Char} {i : Nat} {k : String} {s tg : List Char}
    (h : scanAt text i = .ok (some (k, s, tg))) :
    1 ≤ s.length ∧ i + s.length ≤ text.length := by
  obtain ⟨-, b, hb1, hb2, hb3⟩ := scanAt_ok h
  have : s.length = b - i := by rw [hb3]; exact pySlice_length text i b hb2
  omega

theorem sum_le_interleave_length (ss : List (List Char)) :
    ∀ gs : List (List Char), (ss.map List.length).sum ≤ (interleave gs ss).length := by
  induction ss with
  | nil => intro gs; simp
  | cons s ss ih =>
    intro gs
    simp only [interleave, List.map_cons, List.sum_cons, List.length_append]
    have := ih gs.tail
    omega

/-! Claim theorems. -/

/-- Claim C10 (confirmed): on the whitespace-interior start tags `\x7b%  %\x7d`
and `\x7b\x7b# \x7d\x7d`, `tokenize` raises a raw `IndexError` (Python
`split()[0]` on an empty split) rather than any parser-level error, so the
tokenizer is not total over all string inputs. -/
theorem tokenize_index_error_on_blank_interiors :
    tokenize "\x7b%  %\x7d".toList = .error .indexError ∧
    tokenize "\x7b\x7b# \x7d\x7d".toList = .error .indexError := by
  constructor <;> decide

/-- Claim C4, counterexample: tokenizing `<br/>` does not give tag name
`br`; both the singleton token and its synthetic end carry tag `br/`,
because the tag is the first whitespace-split word of `s[1:-1]`, which keeps
the trailing slash. -/
theorem singleton_br_tag_keeps_slash :
    (tokenize "<br/>".toList).map (List.map Token.tag) =
      .ok ["br/".toList, "br/".toList] ∧ "br/".toList ≠ "br".toList := by
  constructor <;> decide

/-- Claim C4 (amended): tokenizing `<br/>` yields exactly an
`html_singleton` token with tag `br/` at (1,1) followed by a synthetic
`html_singleton_end` with the same tag, raw text `"</" + tag + ">"`
(= `</br/>`), at the post-advance cursor (1,6), with `line_span` 1. -/
theorem singleton_br_tokens :
    tokenize "<br/>".toList =
      .ok [⟨"html_singleton", "<br/>".toList, "br/".toList, 1, 1, 1⟩,
           ⟨"html_singleton_end", "</br/>".toList, "br/".toList, 1, 6, 1⟩] := by
  decide

/-- Claim C2, counterexample: tokenizing `<div class="x` fails with the
message built from "Unbalanced Quotes", not from "Tag missing \">\"":
the quote-parity check in `get_html_tag` precedes the missing-`>` check. -/
theorem unterminated_attribute_not_tag_missing :
    tokenize "<div class=\"x".toList =
      .error (.tpExc "Unbalanced Quotes at Line 1 Col 1:\"<div class=\"x\"") ∧
    (PyErr.tpExc "Unbalanced Quotes at Line 1 Col 1:\"<div class=\"x\"" ≠
      PyErr.tpExc "Tag missing \">\" at Line 1 Col 1:\"<div class=\"x\"") ∧
    get_html_tag "<div class=\"x".toList 0 ≠
      .error (.tokExc "Tag missing \">\"" "<div class=\"x".toList) := by
  refine ⟨by decide, by decide, by decide⟩

/-- Claim C2 (amended): tokenizing `<div class="x` fails with
"Unbalanced Quotes" (the quote count is odd when the scan hits end of
input), the snippet being the whole scanned text since no inner `<` was
seen; the wrapped top-level message carries Line 1 Col 1. -/
theorem unbalanced_quotes_on_unterminated_attribute :
    get_html_tag "<div class=\"x".toList 0 =
      .error (.tokExc "Unbalanced Quotes" "<div class=\"x".toList) ∧
    tokenize "<div class=\"x".toList =
      .error (.tpExc "Unbalanced Quotes at Line 1 Col 1:\"<div class=\"x\"") := by
  constructor <;> decide

/-- Claim C5, counterexample: `\x7b% endif%\x7d` does not yield tag name
`if`; the code computes `s[6:-3]`, stripping three trailing characters, so
the tag is `i`. -/
theorem django_endif_no_space_tag :
    (tokenize "\x7b% endif%\x7d".toList).map (List.map Token.tag) = .ok ["i".toList] ∧
    "i".toList ≠ "if".toList := by
  constructor <;> decide

/-- Claim C1, counterexample: with `check_indent = False`, validating
`<code>x\n</code>` still fails with "Code tag is split across two lines.":
the rule-3 check is not gated by the formatting flag. -/
theorem code_split_fires_with_checks_disabled :
    validate "<code>x\n</code>".toList false =
      .error (.tagProblem "Code tag is split across two lines." "<code>".toList 1 1
        "code".toList 2 1) := by
  decide

/-- Claim C3, counterexample: the unterminated comment `<!--abc` (length 7,
no `<` at any index the scan inspects) makes `tokenize` raise a raw
`IndexError`, not the uniform parser-level "Unclosed comment" error. -/
theorem unclosed_comment_index_error :
    tokenize "<!--abc".toList = .error .indexError ∧
    PyErr.indexError ≠ .tpExc (fmtTokErr "Unclosed comment" 1 1 "<!--abc".toList) := by
  constructor <;> decide

/-- Claim C8, counterexample: validating `<div>` and `\n\n<div>` — whose
unclosed tags sit on line 1 and line 3 respectively — produces the
identical bare error `Missing end tag`, so this error carries no location
context at all (unlike the other validator errors). -/
theorem missing_end_tag_no_location :
    validate "<div>".toList true = .error .missingEndTag ∧
    validate "\n\n<div>".toList true = .error .missingEndTag ∧
    tokenize "<div>".toList = .ok [⟨"html_start", "<div>".toList, "div".toList, 1, 1, 1⟩] ∧
    tokenize "\n\n<div>".toList =
      .ok [⟨"html_start", "<div>".toList, "div".toList, 3, 1, 1⟩] ∧
    (3 : Nat) ≠ 1 := by
  refine ⟨by decide, by decide, by decide, by decide, by decide⟩

/-- Claim C6, counterexample: for `<br/>` no interleaving of gap text around
the raw texts of all produced tokens can rebuild the input: the synthetic
`html_singleton_end` token's raw text `</br/>` corresponds to no input
characters, so the total token text (11 chars) exceeds the input (5 chars). -/
theorem roundtrip_fails_with_synthetic :
    ¬ ∃ toks gs, tokenize "<br/>".toList = .ok toks ∧
        interleave gs (toks.map Token.s) = "<br/>".toList := by
  rintro ⟨toks, gs, htk, hgs⟩
  have hval : tokenize "<br/>".toList =
      .ok [⟨"html_singleton", "<br/>".toList, "br/".toList, 1, 1, 1⟩,
           ⟨"html_singleton_end", "</br/>".toList, "br/".toList, 1, 6, 1⟩] := by decide
  rw [hval] at htk
  injection htk with htk2
  subst htk2
  have h1 := sum_le_interleave_length (List.map Token.s
      [⟨"html_singleton", "<br/>".toList, "br/".toList, 1, 1, 1⟩,
       ⟨"html_singleton_end", "</br/>".toList, "br/".toList, 1, 6, 1⟩]) gs
  rw [hgs] at h1
  have h2 : (List.map List.length (List.map Token.s
      [(⟨"html_singleton", "<br/>".toList, "br/".toList, 1, 1, 1⟩ : Token),
       ⟨"html_singleton_end", "</br/>".toList, "br/".toList, 1, 6, 1⟩])).sum = 11 := by decide
  have h3 : ("<br/>".toList).length = 5 := by decide
  omega

/-- Claim C9, counterexample: tokenizing `<br/><p>` yields three tokens at
positions (1,1), (1,6), (1,6): the synthetic `html_singleton_end` shares its
position with the following token, so the stream is not strictly increasing
in source position. -/
theorem tokens_not_strictly_increasing :
    tokenize "<br/><p>".toList =
      .ok [⟨"html_singleton", "<br/>".toList, "br/".toList, 1, 1, 1⟩,
           ⟨"html_singleton_end", "</br/>".toList, "br/".toList, 1, 6, 1⟩,
           ⟨"html_start", "<p>".toList, "p".toList, 1, 6, 1⟩] ∧
    ¬ List.Chain' strictRel
        [⟨"html_singleton", "<br/>".toList, "br/".toList, 1, 1, 1⟩,
         ⟨"html_singleton_end", "</br/>".toList, "br/".toList, 1, 6, 1⟩,
         ⟨"html_start", "<p>".toList, "p".toList, 1, 6, 1⟩] := by
  constructor
  · decide
  · intro hch
    rw [List.chain'_cons, List.chain'_cons] at hch
    have h2 := hch.2.1
    unfold strictRel tokPos at h2
    rcases h2 with h2 | h2 <;> simp at h2

/-- Claim C7 (confirmed): with formatting checks enabled and matching `a`
tags, an end token 4 lines below the opener at a different column fails
"Bad indentation." while the identical layout only 3 lines below passes
(`max_lines = 3` for tag `a`); concretely, `validate` rejects
`<a>\n\n\n\n  </a>` and accepts `<a>\n\n\n  </a>`. -/
theorem a_tag_bad_indentation_boundary (sline scol ecol : Nat) (h : ecol ≠ scol) :
    checkEnd true ⟨"html_start", "<a>".toList, "a".toList, sline, scol, 1⟩
        ⟨"html_end", "</a>".toList, "a".toList, sline + 4, ecol, 1⟩ = some "Bad indentation." ∧
    checkEnd true ⟨"html_start", "<a>".toList, "a".toList, sline, scol, 1⟩
        ⟨"html_end", "</a>".toList, "a".toList, sline + 3, ecol, 1⟩ = none ∧
    validate "<a>\n\n\n\n  </a>".toList true =
      .error (.tagProblem "Bad indentation." "<a>".toList 1 1 "a".toList 5 3) ∧
    validate "<a>\n\n\n  </a>".toList true = .ok () := by
  refine ⟨?_, ?_, by decide, by decide⟩
  · simp [checkEnd, h]
  · simp [checkEnd, h]

/-- Witness for the `a`-tag boundary theorem at the concrete layout
(1,1) versus column 3. -/
theorem a_tag_bad_indentation_boundary_witness :
    checkEnd true ⟨"html_start", "<a>".toList, "a".toList, 1, 1, 1⟩
        ⟨"html_end", "</a>".toList, "a".toList, 1 + 4, 3, 1⟩ = some "Bad indentation." ∧
    checkEnd true ⟨"html_start", "<a>".toList, "a".toList, 1, 1, 1⟩
        ⟨"html_end", "</a>".toList, "a".toList, 1 + 3, 3, 1⟩ = none ∧
    validate "<a>\n\n\n\n  </a>".toList true =
      .error (.tagProblem "Bad indentation." "<a>".toList 1 1 "a".toList 5 3) ∧
    validate "<a>\n\n\n  </a>".toList true = .ok () :=
  a_tag_bad_indentation_boundary 1 1 3 (by decide)

theorem checkEnd_false_ne_bad_indent {a b : Token} {p : String}
    (h : checkEnd false a b = some p) : p ≠ "Bad indentation." := by
  simp only [checkEnd] at h
  by_cases h1 : a.tag ≠ b.tag
  · rw [if_pos h1] at h
    injection h with h2
    rw [← h2]
    decide
  · rw [if_neg h1, if_neg (fun hcc => absurd hcc.1 (by simp))] at h
    by_cases h3 : a.tag = "code".toList ∧ b.line = a.line + 1
    · rw [if_pos h3] at h
      injection h with h2
      rw [← h2]
      decide
    · rw [if_neg h3] at h
      exact absurd h (by simp)

theorem processTokens_error_cases (ci : Bool) :
    ∀ (toks stack : List Token) (e : VErr), processTokens ci stack toks = .error e →
      (∃ tg l c, e = .noStartTag tg l c) ∨
      (∃ top tok p, checkEnd ci top tok = some p ∧
        e = .tagProblem p top.s top.line top.col tok.tag tok.line tok.col) := by
  intro toks
  induction toks with
  | nil => intro stack e h; exact absurd h (by simp [processTokens])
  | cons tok rest ih =>
    intro stack e h
    simp only [processTokens] at h
    split at h
    · exact ih _ _ h
    · split at h
      · split at h
        · injection h with h2
          exact Or.inl ⟨tok.tag, tok.line, tok.col, h2.symm⟩
        · rename_i top stack2
          split at h
          · rename_i p hp
            injection h with h2
            exact Or.inr ⟨top, tok, p, hp, h2.symm⟩
          · exact ih _ _ h
      · exact ih _ _ h

theorem processTokens_error_ne_missing {ci : Bool} {toks stack : List Token} {e : VErr}
    (h : processTokens ci stack toks = .error e) : e ≠ .missingEndTag := by
  rcases processTokens_error_cases ci toks stack e h with ⟨tg, l, c, rfl⟩ | ⟨t1, t2, p, hp, rfl⟩
  · simp
  · simp

/-- Claim C1 (amended): with the formatting flag disabled, the
"Bad indentation." check (rule 2) can never cause a `validate` failure —
every error then carries some other problem — but the
"Code tag is split across two lines." check (rule 3) is not gated by the
flag and can still fire, as the counterexample theorem shows; structural
errors are enforced regardless. -/
theorem validate_no_bad_indentation_when_unchecked (text : List Char) (e : VErr)
    (h : validate text false = .error e) : problemOf e ≠ some "Bad indentation." := by
  unfold validate at h
  split at h
  · injection h with h2
    rw [← h2]
    simp [problemOf]
  · split at h
    · rename_i e2 hpe
      injection h with h2
      subst h2
      rcases processTokens_error_cases false _ _ _ hpe with ⟨tg, l, c, rfl⟩ |
        ⟨top, tok, p, hp, rfl⟩
      · simp [problemOf]
      · simp only [problemOf, Ne, Option.some.injEq]
        exact checkEnd_false_ne_bad_indent hp
    · split at h
      · injection h with h2
        rw [← h2]
        simp [problemOf]
      · exact absurd h (by simp)

/-- Witness: applying the flag-disabled theorem to the concrete failing run
on `<code>x\n</code>`, whose error problem is the code-split message. -/
theorem validate_no_bad_indentation_when_unchecked_witness :
    problemOf (.tagProblem "Code tag is split across two lines." "<code>".toList 1 1
      "code".toList 2 1) ≠ some "Bad indentation." :=
  validate_no_bad_indentation_when_unchecked "<code>x\n</code>".toList _ (by decide)

/-- Claim C8 (amended): `validate` fails with the bare `Missing end tag`
error exactly when tokenization and the matcher pass both succeed but the
frame stack is non-empty at end of input; this error carries no location
data at all (see the counterexample theorem for two different layouts that
produce the identical error). -/
theorem missing_end_tag_characterization (text : List Char) (ci : Bool) :
    validate text ci = .error .missingEndTag ↔
      ∃ toks stack, tokenize text = .ok toks ∧ processTokens ci [] toks = .ok stack ∧
        stack ≠ [] := by
  constructor
  · intro h
    unfold validate at h
    split at h
    · injection h with h2
      exact absurd h2 (by simp)
    · rename_i toks htk
      split at h
      · rename_i e2 hpe
        injection h with h2
        exact absurd h2 (processTokens_error_ne_missing hpe)
      · rename_i stack hps
        split at h
        · rename_i hne
          exact ⟨toks, stack, htk, hps, hne⟩
        · exact absurd h (by simp)
  · rintro ⟨toks, stack, h1, h2, h3⟩
    unfold validate
    simp only [h1]
    simp only [h2]
    rw [if_pos h3]

theorem tokenizeLoop_ordered (text : List Char) :
    ∀ (fuel : Nat) (st : TokenizerState) (toks : List Token),
      tokenizeLoop text fuel st = .ok toks →
      List.Chain' tokRel toks ∧ ∀ t ∈ toks, pairLe (stPos st) (tokPos t) := by
  intro fuel
  induction fuel with
  | zero => intro st toks h; exact absurd h (by simp [tokenizeLoop])
  | succ n ih =>
    intro st toks h
    simp only [tokenizeLoop] at h
    split at h
    · cases hscan : scanAt text st.i with
      | error e =>
        rw [hscan] at h
        cases e <;> exact absurd h (by simp)
      | ok o =>
        rw [hscan] at h
        cases o with
        | none =>
          obtain ⟨hch, hbd⟩ := ih (advance text 1 st) toks h
          exact ⟨hch, fun t ht => pairLe_trans (advance_pos_le text 1 st) (hbd t ht)⟩
        | some trip =>
          obtain ⟨kind, s, tag⟩ := trip
          dsimp only [] at h
          cases hrec : tokenizeLoop text n (advance text s.length st) with
          | error e2 =>
            rw [hrec] at h
            exact absurd h (by simp)
          | ok rest =>
            rw [hrec] at h
            simp only [Except.ok.injEq] at h
            subst h
            obtain ⟨hch, hbd⟩ := ih (advance text s.length st) rest hrec
            have hslen := scanAt_s_len hscan
            have hlt2 : pairLt (stPos st) (stPos (advance text s.length st)) :=
              advance_pos_lt text s.length st (by omega)
            by_cases hk : kind = "html_singleton"
            · subst hk
              rw [if_pos rfl]
              simp only [List.singleton_append]
              constructor
              · rw [List.chain'_cons]
                refine ⟨⟨pairLe_of_lt hlt2, fun _ => hlt2⟩, ?_⟩
                rw [List.chain'_cons']
                refine ⟨?_, hch⟩
                intro y hy
                have hy2 : y ∈ rest := List.mem_of_mem_head? hy
                exact ⟨hbd y hy2, fun hne => absurd rfl hne⟩
              · intro t ht
                simp only [List.mem_cons] at ht
                rcases ht with rfl | rfl | ht
                · exact pairLe_refl _
                · exact pairLe_of_lt hlt2
                · exact pairLe_trans (pairLe_of_lt hlt2) (hbd t ht)
            · rw [if_neg hk]
              simp only [List.nil_append]
              constructor
              · rw [List.chain'_cons']
                refine ⟨?_, hch⟩
                intro y hy
                have hy2 : y ∈ rest := List.mem_of_mem_head? hy
                have hlty : pairLt (stPos st) (tokPos y) :=
                  pairLt_of_lt_of_le hlt2 (hbd y hy2)
                exact ⟨pairLe_of_lt hlty, fun _ => hlty⟩
              · intro t ht
                simp only [List.mem_cons] at ht
                rcases ht with rfl | ht
                · exact pairLe_refl _
                · exact pairLe_trans (pairLe_of_lt hlt2) (hbd t ht)
    · simp only [Except.ok.injEq] at h
      subst h
      exact ⟨List.chain'_nil, fun t ht => absurd ht (by simp)⟩

/-- Claim C9 (amended): the token stream is produced in non-decreasing
source-position order, and the position strictly increases from any token
that is not a synthetic `html_singleton_end` to its successor; a synthetic
token may share its (post-advance) position with the next token, which is
what refutes the strict form of the claim. -/
theorem tokens_nondecreasing_order (text : List Char) (toks : List Token)
    (h : tokenize text = .ok toks) : List.Chain' tokRel toks :=
  (tokenizeLoop_ordered text (text.length + 1) ⟨0, 1, 1⟩ toks h).1

/-- Witness: the ordering theorem applied to the concrete stream of
`<br/><p>`. -/
theorem tokens_nondecreasing_order_witness :
    List.Chain' tokRel
      [⟨"html_singleton", "<br/>".toList, "br/".toList, 1, 1, 1⟩,
       ⟨"html_singleton_end", "</br/>".toList, "br/".toList, 1, 6, 1⟩,
       ⟨"html_start", "<p>".toList, "p".toList, 1, 6, 1⟩] :=
  tokens_nondecreasing_order "<br/><p>".toList _ (by decide)

theorem interleave_consChar (gs ss : List (List Char)) (c : Char) :
    interleave ((c :: gs.headD []) :: gs.tail) ss = c :: interleave gs ss := by
  cases gs with
  | nil => cases ss with
    | nil => simp [interleave]
    | cons s ss => simp [interleave]
  | cons g gt => cases ss with
    | nil => simp [interleave]
    | cons s ss => simp [interleave]

theorem drop_cons_getD (l : List Char) :
    ∀ n, n < l.length → l.drop n = l.getD n ' ' :: l.drop (n + 1) := by
  induction l with
  | nil => intro n h; exact absurd h (by simp)
  | cons a t ih =>
    intro n h
    cases n with
    | zero => simp
    | succ m =>
      simp only [List.drop_succ_cons, List.getD_cons_succ]
      exact ih m (by simpa using h)

theorem realTokens_cons_keep (t : Token) (l : List Token)
    (h : (t.kind != "html_singleton_end") = true) :
    realTokens (t :: l) = t :: realTokens l := by
  simp [realTokens, List.filter_cons, h]

theorem realTokens_cons_drop (t : Token) (l : List Token)
    (h : (t.kind != "html_singleton_end") = false) :
    realTokens (t :: l) = realTokens l := by
  simp [realTokens, List.filter_cons, h]

theorem tokenizeLoop_roundtrip (text : List Char) :
    ∀ (fuel : Nat) (st : TokenizerState) (toks : List Token),
      tokenizeLoop text fuel st = .ok toks →
      ∃ gs, interleave gs ((realTokens toks).map Token.s) = text.drop st.i := by
  intro fuel
  induction fuel with
  | zero => intro st toks h; exact absurd h (by simp [tokenizeLoop])
  | succ n ih =>
    intro st toks h
    simp only [tokenizeLoop] at h
    split at h
    · rename_i hlt
      cases hscan : scanAt text st.i with
      | error e =>
        rw [hscan] at h
        cases e <;> exact absurd h (by simp)
      | ok o =>
        rw [hscan] at h
        cases o with
        | none =>
          obtain ⟨gs, hgs⟩ := ih (advance text 1 st) toks h
          rw [advance_i] at hgs
          refine ⟨(text.getD st.i ' ' :: gs.headD []) :: gs.tail, ?_⟩
          rw [interleave_consChar, hgs, ← drop_cons_getD text st.i hlt]
        | some trip =>
          obtain ⟨kind, s, tag⟩ := trip
          dsimp only [] at h
          cases hrec : tokenizeLoop text n (advance text s.length st) with
          | error e2 =>
            rw [hrec] at h
            exact absurd h (by simp)
          | ok rest =>
            rw [hrec] at h
            simp only [Except.ok.injEq] at h
            subst h
            obtain ⟨gs, hgs⟩ := ih (advance text s.length st) rest hrec
            rw [advance_i] at hgs
            obtain ⟨hkind, b, hb1, hb2, hb3⟩ := scanAt_ok hscan
            have hpre := pySlice_drop text st.i b s hb3
            by_cases hk : kind = "html_singleton"
            · subst hk
              rw [if_pos rfl]
              rw [List.singleton_append]
              have hrt : realTokens
                  (({ kind := "html_singleton", s := s, tag := tag, line := st.line,
                      col := st.col, line_span := countChar '\n' s + 1 } : Token) ::
                    { kind := "html_singleton_end", s := "</".toList ++ tag ++ ">".toList,
                      tag := tag, line := (advance text s.length st).line,
                      col := (advance text s.length st).col, line_span := 1 } :: rest) =
                  ({ kind := "html_singleton", s := s, tag := tag, line := st.line,
                     col := st.col, line_span := countChar '\n' s + 1 } : Token) ::
                    realTokens rest := by
                rw [realTokens_cons_keep _ _ (by rfl), realTokens_cons_drop _ _ (by rfl)]
              rw [hrt]
              refine ⟨[] :: gs, ?_⟩
              rw [List.map_cons]
              show [] ++ _ ++ interleave gs _ = _
              rw [List.nil_append, hgs, ← hpre]
            · rw [if_neg hk]
              rw [List.nil_append]
              have hrt : realTokens
                  (({ kind := kind, s := s, tag := tag, line := st.line,
                      col := st.col, line_span := countChar '\n' s + 1 } : Token) :: rest) =
                  ({ kind := kind, s := s, tag := tag, line := st.line,
                     col := st.col, line_span := countChar '\n' s + 1 } : Token) ::
                    realTokens rest :=
                realTokens_cons_keep _ _ (bne_iff_ne.mpr hkind)
              rw [hrt]
              refine ⟨[] :: gs, ?_⟩
              rw [List.map_cons]
              show [] ++ _ ++ interleave gs _ = _
              rw [List.nil_append, hgs, ← hpre]
    · rename_i hge
      simp only [Except.ok.injEq] at h
      subst h
      refine ⟨[], ?_⟩
      have : text.drop st.i = [] := List.drop_eq_nil_of_le (by omega)
      rw [this]
      rfl

/-- Claim C6 (amended): for every input on which `tokenize` succeeds, the
input is exactly the concatenation of the raw texts of the non-synthetic
tokens, in order, interleaved with the un-tokenized characters the scanner
skipped; the synthetic `html_singleton_end` tokens must be excluded, since
their raw text corresponds to no input characters (see the counterexample
theorem). -/
theorem tokenize_roundtrip_excluding_synthetic (text : List Char) (toks : List Token)
    (h : tokenize text = .ok toks) :
    ∃ gs, interleave gs ((realTokens toks).map Token.s) = text := by
  obtain ⟨gs, hgs⟩ := tokenizeLoop_roundtrip text (text.length + 1) ⟨0, 1, 1⟩ toks h
  rw [List.drop_zero] at hgs
  exact ⟨gs, hgs⟩

/-- Witness: the roundtrip theorem applied to `x<b>y`, whose single token is
`<b>` with one skipped character on each side. -/
theorem tokenize_roundtrip_excluding_synthetic_witness :
    ∃ gs, interleave gs
        ((realTokens [⟨"html_start", "<b>".toList, "b".toList, 1, 2, 1⟩]).map Token.s) =
      "x<b>y".toList :=
  tokenize_roundtrip_excluding_synthetic "x<b>y".toList _ (by decide)

theorem get?_eq_some_getD (l : List Char) (n : Nat) (h : n < l.length) :
    l.get? n = some (l.getD n ' ') := by
  rw [List.getD_eq_getElem _ _ h, List.get?_eq_getElem?]
  exact List.getElem?_eq_getElem h

theorem commentScan_unclosed (text : List Char) (i : Nat) :
    ∀ (fuel e u : Nat), u ≠ 0 →
      (∀ e2, e ≤ e2 → e2 ≤ text.length → pySlice text (e2 - 3) e2 ≠ "-->".toList) →
      commentScan text i fuel e u = .error (.tokExc "Unclosed comment" (pySlice text i u)) := by
  intro fuel
  induction fuel with
  | zero => intro e u hu hnc; rfl
  | succ n ih =>
    intro e u hu hnc
    simp only [commentScan]
    by_cases hle : e ≤ text.length
    · rw [if_pos hle, if_neg (hnc e (le_refl e) hle), if_neg hu]
      exact ih (e + 1) u hu (fun e2 h1 h2 => hnc e2 (by omega) h2)
    · rw [if_neg hle]

theorem commentScan_index_error (text : List Char) (i : Nat) :
    ∀ (fuel e : Nat), e ≤ text.length → fuel ≥ text.length + 1 - e →
      (∀ e2, e ≤ e2 → e2 ≤ text.length → pySlice text (e2 - 3) e2 ≠ "-->".toList) →
      (∀ k, e ≤ k → k < text.length → text.getD k ' ' ≠ '<') →
      commentScan text i fuel e 0 = .error .indexError := by
  intro fuel
  induction fuel with
  | zero => intro e he hf hnc hlt; omega
  | succ n ih =>
    intro e he hf hnc hlt
    simp only [commentScan]
    rw [if_pos he, if_neg (hnc e (le_refl e) he), if_pos trivial]
    by_cases helen : e < text.length
    · rw [get?_eq_some_getD text e helen]
      dsimp only []
      rw [if_neg (hlt e (le_refl e) helen)]
      exact ih (e + 1) (by omega) (by omega) (fun e2 h1 h2 => hnc e2 (by omega) h2)
        (fun k h1 h2 => hlt k (by omega) h2)
    · have : text.get? e = none := List.get?_eq_none.mpr (by omega)
      rw [this]

theorem commentScan_finds_lt (text : List Char) (i : Nat) :
    ∀ (fuel e j : Nat), 0 < e → e ≤ j → j < text.length → text.getD j ' ' = '<' →
      fuel ≥ text.length + 2 - e →
      (∀ e2, e ≤ e2 → e2 ≤ text.length → pySlice text (e2 - 3) e2 ≠ "-->".toList) →
      (∀ k, e ≤ k → k < j → text.getD k ' ' ≠ '<') →
      commentScan text i fuel e 0 =
        .error (.tokExc "Unclosed comment" (pySlice text i j)) := by
  intro fuel
  induction fuel with
  | zero => intro e j h0 hej hjlt hjc hf hnc hfirst; omega
  | succ n ih =>
    intro e j h0 hej hjlt hjc hf hnc hfirst
    have hele : e ≤ text.length := by omega
    simp only [commentScan]
    rw [if_pos hele, if_neg (hnc e (le_refl e) hele), if_pos trivial]
    rw [get?_eq_some_getD text e (by omega)]
    dsimp only []
    by_cases hej2 : e = j
    · subst hej2
      rw [if_pos hjc]
      exact commentScan_unclosed text i n (e + 1) e (by omega)
        (fun e2 h1 h2 => hnc e2 (by omega) h2)
    · rw [if_neg (hfirst e (le_refl e) (by omega))]
      exact ih (e + 1) j (by omega) (by omega) hjlt hjc (by omega)
        (fun e2 h1 h2 => hnc e2 (by omega) h2) (fun k h1 h2 => hfirst k (by omega) h2)

theorem tokenize_comment_tokExc (text : List Char) (hlen : 0 < text.length)
    (hlook : looking_at text 0 "<!--".toList = true) (m : String) (lc : List Char)
    (hc : get_html_comment text 0 = .error (.tokExc m lc)) :
    tokenize text = .error (.tpExc (fmtTokErr m 1 1 lc)) := by
  unfold tokenize
  simp only [tokenizeLoop]
  rw [if_pos hlen]
  have hsc : scanAt text 0 = .error (.tokExc m lc) := by
    unfold scanAt
    rw [if_pos hlook, hc]
  rw [hsc]

theorem tokenize_comment_indexError (text : List Char) (hlen : 0 < text.length)
    (hlook : looking_at text 0 "<!--".toList = true)
    (hc : get_html_comment text 0 = .error .indexError) :
    tokenize text = .error .indexError := by
  unfold tokenize
  simp only [tokenizeLoop]
  rw [if_pos hlen]
  have hsc : scanAt text 0 = .error .indexError := by
    unfold scanAt
    rw [if_pos hlook, hc]
  rw [hsc]

/-- Claim C3 (amended): for every input beginning an HTML comment `<!--`
whose terminator (an occurrence of `-->` at index ≥ 4) never appears, the
comment scan fails as follows: if the input is shorter than 7 characters,
the uniform "Unclosed comment" parser error is raised with an empty
snippet; if a `<` occurs at some index ≥ 7 (the region the unterminated
scan inspects), the uniform "Unclosed comment" error is raised with the
snippet running from the comment start up to (but not including) the first
such `<`; but if the input has length ≥ 7 and no `<` at any index ≥ 7, a
raw `IndexError` escapes instead of the parser-level error. -/
theorem unclosed_comment_failure_modes (text : List Char)
    (hpre : pySlice text 0 4 = "<!--".toList)
    (hnc : ∀ e < text.length + 1, 7 ≤ e → pySlice text (e - 3) e ≠ "-->".toList) :
    (text.length < 7 →
      tokenize text = .error (.tpExc (fmtTokErr "Unclosed comment" 1 1 []))) ∧
    (∀ j < text.length, 7 ≤ j → text.getD j ' ' = '<' →
      (∀ k < j, 7 ≤ k → text.getD k ' ' ≠ '<') →
      tokenize text = .error (.tpExc (fmtTokErr "Unclosed comment" 1 1 (text.take j)))) ∧
    (7 ≤ text.length → (∀ k < text.length, 7 ≤ k → text.getD k ' ' ≠ '<') →
      tokenize text = .error .indexError) := by
  have hlen4 : 4 ≤ text.length := by
    have hh := congrArg List.length hpre
    simp only [pySlice, List.length_take, List.length_drop] at hh
    have : ("<!--".toList).length = 4 := by decide
    omega
  have hlook : looking_at text 0 "<!--".toList = true := by
    unfold looking_at
    have : (0 : Nat) + ("<!--".toList).length = 4 := by decide
    rw [this, hpre]
    decide
  refine ⟨?_, ?_, ?_⟩
  · intro h7
    refine tokenize_comment_tokExc text (by omega) hlook _ _ ?_
    unfold get_html_comment
    simp only [commentScan]
    rw [if_neg (by omega)]
    rfl
  · intro j hjlt hj7 hjc hfirst
    refine tokenize_comment_tokExc text (by omega) hlook _ _ ?_
    unfold get_html_comment
    have := commentScan_finds_lt text 0 (text.length + 2) 7 j (by omega) hj7 hjlt hjc
      (by omega) (fun e2 h1 h2 => hnc e2 (by omega) h1)
      (fun k h1 h2 => hfirst k h2 h1)
    rw [this]
    have hsl : pySlice text 0 j = text.take j := by simp [pySlice]
    rw [hsl]
  · intro h7 hnolt
    refine tokenize_comment_indexError text (by omega) hlook ?_
    unfold get_html_comment
    exact commentScan_index_error text 0 (text.length + 2) 7 h7 (by omega)
      (fun e2 h1 h2 => hnc e2 (by omega) h1) (fun k h1 h2 => hnolt k h2 h1)

/-- Witness: the failure-mode theorem applied to `<!--abc<d`, whose first
`<` in the scanned region sits at index 7, giving the snippet `<!--abc`. -/
theorem unclosed_comment_failure_modes_witness :
    tokenize "<!--abc<d".toList =
      .error (.tpExc (fmtTokErr "Unclosed comment" 1 1 ("<!--abc<d".toList.take 7))) :=
  (unclosed_comment_failure_modes "<!--abc<d".toList (by decide)
      (by decide)).2.1 7 (by decide) (by decide) (by decide) (by decide)

theorem take_append_le (l l2 : List Char) :
    ∀ n, n ≤ l.length → (l ++ l2).take n = l.take n := by
  induction l with
  | nil =>
    intro n hn
    have : n = 0 := by simpa using hn
    subst this
    rfl
  | cons a tl ih =>
    intro n hn
    cases n with
    | zero => rfl
    | succ m =>
      simp only [List.cons_append, List.take_succ_cons]
      rw [ih m (by simpa using hn)]

theorem djScan_spec (text : List Char) :
    ∀ (fuel e m : Nat), e ≤ m → m < text.length - 1 → text.getD m ' ' = '%' →
      (∀ k, e ≤ k → k < m → text.getD k ' ' ≠ '%') → fuel ≥ m - e →
      djScan text fuel e = m := by
  intro fuel
  induction fuel with
  | zero =>
    intro e m he hm hc hnone hf
    have : e = m := by omega
    subst this
    rfl
  | succ n ih =>
    intro e m he hm hc hnone hf
    simp only [djScan]
    by_cases hem : e = m
    · subst hem
      rw [if_neg (fun hko => hko.2 hc)]
    · rw [if_pos ⟨by omega, hnone e (le_refl e) (by omega)⟩]
      exact ih (e + 1) m (by omega) hm hc (fun k h1 h2 => hnone k (by omega) h2) (by omega)

theorem tokenizeLoop_step_token (text : List Char) (fuel : Nat) (st : TokenizerState)
    (hlt : st.i < text.length) (kind : String) (s tag : List Char)
    (hscan : scanAt text st.i = .ok (some (kind, s, tag)))
    (hkind : kind ≠ "html_singleton") :
    tokenizeLoop text (fuel + 1) st =
      match tokenizeLoop text fuel (advance text s.length st) with
      | .error e => .error e
      | .ok rest =>
        .ok (⟨kind, s, tag, st.line, st.col, countChar '\n' s + 1⟩ :: rest) := by
  simp only [tokenizeLoop]
  rw [if_pos hlt, hscan]
  dsimp only []
  rw [if_neg hkind]
  cases tokenizeLoop text fuel (advance text s.length st) <;> simp

theorem tokenizeLoop_stop (text : List Char) (fuel : Nat) (st : TokenizerState)
    (hge : ¬ st.i < text.length) : tokenizeLoop text (fuel + 1) st = .ok [] := by
  simp only [tokenizeLoop]
  rw [if_neg hge]

/-- Claim C5 (amended): the `django_end` tag name is the interior text after
the 6-character `{% end` prefix with the trailing THREE characters
stripped (`s[6:-3]`): for every `%`-free `body`, tokenizing
`{% end` ++ body ++ ` %}` yields a single `django_end` token whose tag
is exactly `body` (the stripped three characters being ` %}`); with only
the two-character `%}` suffix the tag loses its last character, as the
counterexample theorem shows on `{% endif%}`. -/
theorem django_end_strips_three_trailing (body : List Char) (hb : '%' ∉ body) :
    tokenize ("\x7b% end".toList ++ (body ++ " %\x7d".toList)) =
      .ok [⟨"django_end", "\x7b% end".toList ++ (body ++ " %\x7d".toList), body, 1, 1,
        countChar '\n' ("\x7b% end".toList ++ (body ++ " %\x7d".toList)) + 1⟩] := by
  set t : List Char := "\x7b% end".toList ++ (body ++ " %\x7d".toList) with ht
  have h6 : ("\x7b% end".toList).length = 6 := by decide
  have h3 : ((" %\x7d".toList) : List Char).length = 3 := by decide
  have hlen : t.length = body.length + 9 := by
    rw [ht]
    simp only [List.length_append, h6, h3]
    omega
  have hgetRest : ∀ k, 6 ≤ k →
      t.getD k ' ' = (body ++ " %\x7d".toList).getD (k - 6) ' ' := by
    intro k hk
    rw [ht]
    rw [List.getD_append_right _ _ _ _ (by rw [h6]; omega), h6]
  have hgetPost : ∀ k, body.length ≤ k →
      (body ++ " %\x7d".toList).getD k ' ' = (" %\x7d".toList).getD (k - body.length) ' ' := by
    intro k hk
    rw [List.getD_append_right _ _ _ _ hk]
  have hm : t.getD (body.length + 7) ' ' = '%' := by
    rw [hgetRest _ (by omega)]
    have h1 : body.length + 7 - 6 = body.length + 1 := by omega
    rw [h1, hgetPost _ (by omega)]
    have h2 : body.length + 1 - body.length = 1 := by omega
    rw [h2]
    decide
  have hm2 : t.getD (body.length + 8) ' ' = '\x7d' := by
    rw [hgetRest _ (by omega)]
    have h1 : body.length + 8 - 6 = body.length + 2 := by omega
    rw [h1, hgetPost _ (by omega)]
    have h2 : body.length + 2 - body.length = 2 := by omega
    rw [h2]
    decide
  have hnopct : ∀ k, 2 ≤ k → k < body.length + 7 → t.getD k ' ' ≠ '%' := by
    intro k h1 h2
    by_cases hk6 : k < 6
    · rw [ht, List.getD_append _ _ _ _ (by rw [h6]; omega)]
      interval_cases k <;> decide
    · rw [hgetRest k (by omega)]
      by_cases hkb : k - 6 < body.length
      · rw [List.getD_append _ _ _ _ hkb]
        rw [List.getD_eq_getElem _ _ hkb]
        intro heq
        exact hb (heq ▸ List.getElem_mem _)
      · rw [hgetPost (k - 6) (by omega)]
        have h0 : k - 6 - body.length = 0 := by omega
        rw [h0]
        decide
  have hscan : djScan t t.length 2 = body.length + 7 := by
    exact djScan_spec t t.length 2 (body.length + 7) (by omega) (by omega) hm
      (fun k hk1 hk2 => hnopct k hk1 hk2) (by omega)
  have hdj : get_django_tag t 0 = .ok (pySlice t 0 (body.length + 9)) := by
    simp only [get_django_tag]
    have h02 : (0 : Nat) + 2 = 2 := rfl
    rw [h02, hscan]
    unfold pyIdx
    rw [get?_eq_some_getD t _ (by omega), hm]
    dsimp only []
    rw [if_neg (fun hk => hk rfl)]
    rw [get?_eq_some_getD t _ (by omega)]
    have h78 : body.length + 7 + 1 = body.length + 8 := rfl
    rw [h78, hm2]
    dsimp only []
    rw [if_neg (fun hk => hk rfl)]
  have hs_val : pySlice t 0 (body.length + 9) = t := by
    rw [← hlen]
    simp [pySlice]
  have htake : ∀ n : Nat, n ≤ 6 → t.take n = ("\x7b% end".toList).take n := by
    intro n hn
    rw [ht]
    exact take_append_le _ _ n (by rw [h6]; omega)
  have hlkC : looking_at t 0 "<!--".toList = false := by
    show (t.take 4 == "<!--".toList) = false
    rw [htake 4 (by omega)]
    decide
  have hlkLt : looking_at t 0 "<".toList = false := by
    show (t.take 1 == "<".toList) = false
    rw [htake 1 (by omega)]
    decide
  have hlkHe2 : looking_at t 0 "</".toList = false := by
    show (t.take 2 == "</".toList) = false
    rw [htake 2 (by omega)]
    decide
  have hlkHs1 : looking_at t 0 "\x7b\x7b#".toList = false := by
    show (t.take 3 == "\x7b\x7b#".toList) = false
    rw [htake 3 (by omega)]
    decide
  have hlkHs2 : looking_at t 0 "\x7b\x7b^".toList = false := by
    show (t.take 3 == "\x7b\x7b^".toList) = false
    rw [htake 3 (by omega)]
    decide
  have hlkHe : looking_at t 0 "\x7b\x7b/".toList = false := by
    show (t.take 3 == "\x7b\x7b/".toList) = false
    rw [htake 3 (by omega)]
    decide
  have hlkDjS : looking_at t 0 "\x7b% ".toList = true := by
    show (t.take 3 == "\x7b% ".toList) = true
    rw [htake 3 (by omega)]
    decide
  have hlkDjE : looking_at t 0 "\x7b% end".toList = true := by
    show (t.take 6 == "\x7b% end".toList) = true
    rw [htake 6 (by omega)]
    decide
  have hscanAt : scanAt t 0 = .ok (some ("django_end", t, body)) := by
    unfold scanAt
    rw [if_neg (by rw [hlkC]; exact Bool.false_ne_true)]
    rw [if_neg (by rw [hlkLt]; simp)]
    rw [if_neg (by rw [hlkHe2]; exact Bool.false_ne_true)]
    rw [if_neg (by rw [hlkHs1, hlkHs2]; simp)]
    rw [if_neg (by rw [hlkHe]; exact Bool.false_ne_true)]
    rw [if_neg (by rw [hlkDjS, hlkDjE]; simp)]
    rw [if_pos hlkDjE]
    rw [hdj, hs_val]
    dsimp only []
    have hsneg : pySliceNeg t 6 3 = body := by
      unfold pySliceNeg
      have hdrop : t.drop 6 = body ++ " %\x7d".toList := by
        rw [ht]
        have hd := List.drop_left ("\x7b% end".toList) (body ++ " %\x7d".toList)
        rw [h6] at hd
        exact hd
      rw [hdrop, hlen]
      have h9 : body.length + 9 - 3 - 6 = body.length := by omega
      rw [h9]
      rw [take_append_le body _ body.length (le_refl _), List.take_length]
    rw [hsneg]
  unfold tokenize
  rw [hlen]
  rw [tokenizeLoop_step_token t (body.length + 9) ⟨0, 1, 1⟩
    (by show (0 : Nat) < t.length; rw [hlen]; omega) "django_end" t body hscanAt
    (by decide)]
  have h98 : body.length + 9 = body.length + 8 + 1 := rfl
  rw [h98]
  rw [tokenizeLoop_stop t (body.length + 8) _
    (by rw [advance_i]; show ¬ ((0 : Nat) + t.length < t.length); omega)]

/-- Witness: the three-character stripping theorem at `body = if`, i.e. on
the input `{% endif %}`, whose token's tag is `if`. -/
theorem django_end_strips_three_trailing_witness :
    tokenize ("\x7b% end".toList ++ ("if".toList ++ " %\x7d".toList)) =
      .ok [⟨"django_end", "\x7b% end".toList ++ ("if".toList ++ " %\x7d".toList),
        "if".toList, 1, 1,
        countChar '\n' ("\x7b% end".toList ++ ("if".toList ++ " %\x7d".toList)) + 1⟩] :=
  django_end_strips_three_trailing "if".toList (by decide)

end TemplateParser
